import Mathlib

/-!
Verification of the DeDupeLab core: a shallow embedding of the scanner
(context classifier), store duplicate query, planner, applier and rollback,
with theorems settling the specification claims.

Files as association lists from path strings to byte contents; directories
are implicit and `mkdir` is a no-op.  Fallible I/O is modelled with an
explicit fault oracle where a claim is about failure behaviour.
-/

namespace DeDupeLab

set_option maxRecDepth 4000

/-- Byte content of a file (`st_size` is the list length). -/
abbrev Content := List Nat

/-- Filesystem model: association list from path strings to file contents. -/
abbrev FS := List (String × Content)

/-- Content at path `p`, if a file exists there. -/
def fsGet (fs : FS) (p : String) : Option Content :=
  match fs with
  | [] => none
  | (q, c) :: rest => if q = p then some c else fsGet rest p

/-- Unlink: remove every entry for path `p`. -/
def fsRemove (fs : FS) (p : String) : FS :=
  match fs with
  | [] => []
  | (q, c) :: rest => if q = p then fsRemove rest p else (q, c) :: fsRemove rest p

/-- Create or overwrite the file at `p` with content `c`. -/
def fsSet (fs : FS) (p : String) (c : Content) : FS :=
  (p, c) :: fsRemove fs p

/-- `Path.exists()` on the model. -/
def fsExists (fs : FS) (p : String) : Bool :=
  (fsGet fs p).isSome

/-- The path keys present in the filesystem. -/
def fsKeys (fs : FS) : List String := fs.map (fun e => e.1)

/-! ### Path-string helpers (mirroring `pathlib` on normalized POSIX paths) -/

/-- Index of the last '.' in a character list (Python `str.rfind`). -/
def rfindDot : List Char → Option Nat
  | [] => none
  | c :: rest =>
    match rfindDot rest with
    | some j => some (j + 1)
    | none => if c = '.' then some 0 else none

/-- `PurePath.stem`/`PurePath.suffix` split of a file name: the suffix starts at
    the last dot provided `0 < i < len - 1`, otherwise the suffix is empty. -/
def splitExt (name : String) : String × String :=
  match rfindDot name.data with
  | some i =>
    if 0 < i ∧ i + 1 < name.data.length then
      (⟨name.data.take i⟩, ⟨name.data.drop i⟩)
    else (name, "")
  | none => (name, "")

/-- Split a character list at a separator character (`str.split(sep)`). -/
def splitOnChar (sep : Char) : List Char → List (List Char)
  | [] => [[]]
  | c :: rest =>
    let r := splitOnChar sep rest
    if c = sep then [] :: r
    else
      match r with
      | [] => [[c]]
      | h :: t => (c :: h) :: t

/-- Path components: `s.split("/")`. -/
def pathParts (s : String) : List String :=
  (splitOnChar '/' s.data).map (fun l => (⟨l⟩ : String))

/-- Join a string list with a separator (`sep.join(l)`). -/
def interSep (sep : String) : List String → String
  | [] => ""
  | h :: t => t.foldl (fun acc s => acc ++ sep ++ s) h

/-- `str(Path(s).parent)` for a normalized path string. -/
def dirName (s : String) : String :=
  let parts := pathParts s
  match parts with
  | [] => "."
  | [_] => "."
  | _ =>
    let init := parts.dropLast
    if init = [""] then "/" else interSep "/" init

/-- `Path(s).name` for a normalized path string. -/
def baseName (s : String) : String :=
  ((pathParts s).getLast?).getD ""

/-- `str(Path(d) / n)` for a normalized directory string `d`. -/
def joinDir (d n : String) : String :=
  if d = "." then n else if d = "/" then "/" ++ n else d ++ "/" ++ n

/-- The i-th collision candidate of `ensure_unique`:
    `dst.parent / (stem + " (i)" + suffix)`  (f-string in `planner.ensure_unique`). -/
def candName (dst : String) (i : Nat) : String :=
  let se := splitExt (baseName dst)
  joinDir (dirName dst) (se.1 ++ " (" ++ toString i ++ ")" ++ se.2)

/-- The `while True` search of `planner.ensure_unique`, with fuel.  `none` means
    the fuel ran out, which corresponds to the Python loop not terminating; it is
    proved below (`ensure_unique_isSome`) that with fuel `fs.length + 1` this
    cannot happen. -/
def ensureUniqueLoop (fs : FS) (dst : String) : Nat → Nat → Option String
  | 0, _ => none
  | fuel + 1, i =>
    let cand := candName dst i
    if fsExists fs cand then ensureUniqueLoop fs dst fuel (i + 1) else some cand

/-- `planner.ensure_unique`: return `dst` if it does not exist, else the first
    free collision candidate `stem (i)suffix`, `i = 1, 2, …`. -/
def ensure_unique (fs : FS) (dst : String) : Option String :=
  if fsExists fs dst then ensureUniqueLoop fs dst (fs.length + 1) 1 else some dst

/-- Total version of `ensure_unique` (the fallback branch is unreachable,
    see `ensure_unique_isSome`). -/
def ensureUniqueD (fs : FS) (dst : String) : String :=
  (ensure_unique fs dst).getD dst

/-! ### Strict applier (`applier.py`): three-phase commit with fault oracle -/

/-- `dst.with_suffix(dst.suffix + '.tmp')`: since the new suffix is the old one
    with `.tmp` appended, the result is always the original string with `.tmp`
    appended. -/
def tmpPath (dst : String) : String := dst ++ ".tmp"

/-- Fault oracle for one `copy_verify_delete` call.  `copyWrites` is the content
    the copy phase leaves in the temporary file (`none`: the copy itself raised;
    `some w` with `w` different from the source content models on-disk
    corruption, which the verify phase is there to catch). -/
structure Faults where
  copyWrites : Option Content
  fsyncOk : Bool
  renameOk : Bool
  unlinkOk : Bool

/-- The fault-free oracle for a source whose content is `c`. -/
def noFaults (c : Content) : Faults :=
  { copyWrites := some c, fsyncOk := true, renameOk := true, unlinkOk := true }

/-- `applier.copy_verify_delete src dst`.  Returns the new filesystem and
    `some size` on success (the function's return value) or `none` when it
    raises `RuntimeError`; the outer `except` handler's temp-file cleanup is
    included in every error branch. -/
def copy_verify_delete (hash : Content → String) (f : Faults) (fs : FS)
    (src dst : String) : FS × Option Nat :=
  let tmp := tmpPath dst
  match fsGet fs src with
  | none => (fsRemove fs tmp, none)      -- src.stat() raises; handler unlinks tmp
  | some c =>
    let size := c.length                 -- size read before the copy
    match f.copyWrites with
    | none => (fsRemove fs tmp, none)    -- PHASE 1 copy raised; handler unlinks tmp
    | some w =>
      let fs1 := fsSet fs tmp w          -- temp file now holds w
      if !f.fsyncOk then (fsRemove fs1 tmp, none)   -- fsync failed
      else
        match fsGet fs1 src with         -- PHASE 2: re-hash src from disk
        | none => (fsRemove fs1 tmp, none)
        | some c2 =>
          if hash c2 ≠ hash w then (fsRemove fs1 tmp, none)  -- hash mismatch
          else if !f.renameOk then (fsRemove fs1 tmp, none)  -- rename failed
          else
            let fs2 := fsSet (fsRemove fs1 tmp) dst w        -- PHASE 3: rename
            if f.unlinkOk then (fsRemove fs2 src, some size) -- delete source
            else (fs2, some size)        -- unlink failed: warn, still succeed

/-- One CSV plan row (the fields the applier reads). -/
structure Row where
  op : String
  status : String
  src_path : String
  dst_path : String

/-- Checkpoint move entry (`{src, dst, size, timestamp}`). -/
structure MoveRec where
  src : String
  dst : String
  size : Nat
  timestamp : Nat
deriving DecidableEq

/-- Accumulated state of the `apply_moves` loop. -/
structure AppState where
  fs : FS
  applied : List MoveRec
  attempted : Nat
  skipped : Nat
  errors : Nat
  bytes_moved : Nat

/-- Statistics block of the checkpoint / return dict of `apply_moves`. -/
structure Stats where
  attempted : Nat
  succeeded : Nat
  skipped : Nat
  errors : Nat
  bytes_moved : Nat

/-- Checkpoint manifest (`{timestamp, dry_run, statistics, moves}`). -/
structure Checkpoint where
  timestamp : Nat
  dry_run : Bool
  statistics : Stats
  moves : List MoveRec

/-- Result of `apply_moves`: final filesystem, written checkpoint, returned stats. -/
structure ApplyResult where
  fs : FS
  checkpoint : Checkpoint
  stats : Stats

/-- One iteration of the `apply_moves` row loop.  `now` models `time.time()`. -/
def applyRow (hash : Content → String) (now : Nat) (dryRun : Bool)
    (st : AppState) (rf : Row × Faults) : AppState :=
  let row := rf.1
  if row.op ≠ "move" ∨ row.status ≠ "planned" then st
  else
    let st := { st with attempted := st.attempted + 1 }
    if !fsExists st.fs row.src_path then
      { st with skipped := st.skipped + 1 }            -- source not found
    else
      let dst :=
        if fsExists st.fs row.dst_path then ensureUniqueD st.fs row.dst_path
        else row.dst_path                               -- late-collision handling
      if dryRun then st                                 -- simulate only
      else
        match copy_verify_delete hash rf.2 st.fs row.src_path dst with
        | (fs2, some size) =>
          { st with fs := fs2
                    bytes_moved := st.bytes_moved + size
                    applied := st.applied ++
                      [{ src := row.src_path, dst := dst, size := size, timestamp := now }] }
        | (fs2, none) =>
          { st with fs := fs2, errors := st.errors + 1 }

/-- `applier.apply_moves`: iterate the rows, then write the checkpoint
    (unconditionally, also in dry-run) and return the statistics with
    `succeeded = len(applied)`. -/
def apply_moves (hash : Content → String) (now : Nat) (dryRun : Bool)
    (rows : List (Row × Faults)) (fs : FS) : ApplyResult :=
  let st0 : AppState :=
    { fs := fs, applied := [], attempted := 0, skipped := 0, errors := 0, bytes_moved := 0 }
  let st := rows.foldl (applyRow hash now dryRun) st0
  let stats : Stats :=
    { attempted := st.attempted, succeeded := st.applied.length, skipped := st.skipped,
      errors := st.errors, bytes_moved := st.bytes_moved }
  { fs := st.fs
    checkpoint :=
      { timestamp := now, dry_run := dryRun, statistics := stats, moves := st.applied }
    stats := stats }

/-! ### Context classifier (`scanner.py`)

Paths are component lists below the filesystem root: `/r/a.txt` is
`["r", "a.txt"]` and the root `/` is `[]`.  The scenario filesystem is the
list of existing regular files. -/

abbrev PPath := List (String)

/-- `Path.name` (the root has an empty name). -/
def pathName (p : PPath) : String := (p.getLast?).getD ""

/-- `Path.parents`: all strict ancestor prefixes, nearest first, ending at the
    root `[]`. -/
def parentsOf (p : PPath) : List PPath :=
  ((List.range p.length).reverse).map (fun k => p.take k)

/-- ASCII lowercasing of one character (`str.lower` on the names involved). -/
def charLower (c : Char) : Char :=
  if 65 ≤ c.toNat ∧ c.toNat ≤ 90 then Char.ofNat (c.toNat + 32) else c

/-- ASCII `str.lower`. -/
def strLower (s : String) : String := ⟨s.data.map charLower⟩

/-- Python `sub in hay` prefix matcher helper. -/
def startsWithChars : List Char → List Char → Bool
  | _, [] => true
  | [], _ :: _ => false
  | h :: hs, n :: ns => h = n && startsWithChars hs ns

/-- Python substring test `needle in hay`. -/
def containsSub (needle : List Char) : List Char → Bool
  | [] => startsWithChars [] needle
  | h :: t => startsWithChars (h :: t) needle || containsSub needle t

/-- `sub in s` on strings. -/
def strHasSub (s sub : String) : Bool := containsSub sub.data s.data

/-- Does a path string end in `.tmp`? -/
def endsWithTmp (s : String) : Bool :=
  startsWithChars s.data.reverse ".tmp".data.reverse

def EXTRACTION_MARKERS : List String :=
  ["extracted", "unzipped", "unpacked", "unarchived", "decompressed", "unrar", "untar"]

def ARCHIVE_EXTENSIONS : List String :=
  [".zip", ".7z", ".tar", ".gz", ".bz2", ".xz", ".rar",
   ".tar.gz", ".tar.bz2", ".tar.xz", ".tgz", ".tbz2"]

/-- `ext.replace('.', '_')`. -/
def dotToUnderscore (s : String) : String :=
  ⟨s.data.map (fun c => if c = '.' then '_' else c)⟩

/-- `ext.replace('.', '')`. -/
def dotRemoved (s : String) : String := ⟨s.data.filter (fun c => c ≠ '.')⟩

/-- Rule 1: the ancestor's (case-folded) name contains an extraction marker. -/
def ruleMarkers (pname : String) : Bool :=
  EXTRACTION_MARKERS.any (fun m => strHasSub pname m)

/-- Rule 2: a sibling archive `parent.with_name(parent.name + ext)` exists as a
    file.  (Callers must first rule out the empty-name case where `with_name`
    raises.) -/
def ruleAdjacent (fs2 : List PPath) (parent : PPath) : Bool :=
  ARCHIVE_EXTENSIONS.any
    (fun ext => fs2.contains (parent.dropLast ++ [pathName parent ++ ext]))

/-- Rule 3: the case-folded name contains an archive token with the dot replaced
    by `_` or removed. -/
def ruleArchiveLikeName (pname : String) : Bool :=
  ARCHIVE_EXTENSIONS.any
    (fun ext => strHasSub pname (dotToUnderscore ext) || strHasSub pname (dotRemoved ext))

/-- The `for parent in path.parents` loop of `_is_inside_archive`.
    `.error ()` models the `ValueError` that `Path.with_name` raises when the
    ancestor has an empty name (the root `/` or `.`), which happens on the
    first iteration of the adjacent-archive loop for that ancestor. -/
def isInsideArchiveGo (fs2 : List PPath) : List PPath → Except Unit Bool
  | [] => .ok false
  | parent :: rest =>
    let pname := strLower (pathName parent)
    if ruleMarkers pname then .ok true
    else if pathName parent = "" then .error ()
    else if ruleAdjacent fs2 parent then .ok true
    else if ruleArchiveLikeName pname then .ok true
    else isInsideArchiveGo fs2 rest

/-- `scanner._is_inside_archive`. -/
def is_inside_archive (fs2 : List PPath) (p : PPath) : Except Unit Bool :=
  isInsideArchiveGo fs2 (parentsOf p)

/-- `scanner._detect_context`. -/
def detect_context (fs2 : List PPath) (p : PPath) : Except Unit String :=
  match is_inside_archive fs2 p with
  | .ok true => .ok "archived"
  | .ok false => .ok "unarchived"
  | .error e => .error e

/-- The per-file collection loop of `scanner.threaded_hash`: each worker result
    is processed inside `try/except`, and a file whose processing raises is
    dropped from `results`.  Stat, hashing and MIME lookup are total here, so a
    record is kept exactly when context detection does not raise; the record is
    reduced to `(path, context_tag)`.  (`as_completed` makes the real result
    order nondeterministic; only membership and count are used below.) -/
def threaded_hash_records (fs2 : List PPath) (files : List PPath) :
    List (PPath × String) :=
  files.filterMap (fun p =>
    match detect_context fs2 p with
    | .ok t => some (p, t)
    | .error _ => none)

/-! ### Store duplicate query (`db.py get_duplicates`) -/

/-- A row of the `files` table. -/
structure FileRec where
  path : String
  size : Nat
  mtime : Int
  sha256 : String
  mime : String
  context_tag : String

/-- The composite `GROUP BY` key. -/
def recKey (r : FileRec) : String × String := (r.sha256, r.context_tag)

/-- Rows of a given `(sha256, context_tag)` group, in table order. -/
def matchingRecs (recs : List FileRec) (sha ctx : String) : List FileRec :=
  recs.filter (fun r => decide (r.sha256 = sha ∧ r.context_tag = ctx))

/-- `DB.get_duplicates`:
    `SELECT sha256, context_tag, GROUP_CONCAT(path, '|') FROM files
     GROUP BY sha256, context_tag HAVING COUNT(*) > 1`.
    Groups are enumerated in some order of the distinct keys (SQLite does not
    specify the output order); each group joins its member paths with `|`. -/
def get_duplicates (recs : List FileRec) : List (String × String × String) :=
  ((recs.map recKey).dedup).filterMap (fun k =>
    let ps := (matchingRecs recs k.1 k.2).map (fun r => r.path)
    if 2 ≤ ps.length then some (k.1, k.2, interSep "|" ps) else none)

/-! ### Planner (`cli.py cmd_plan` + `planner.py write_plan_csv`) -/

/-- One plan row with all eight CSV fields. -/
structure PlanRow where
  status : String
  op : String
  src_path : String
  dst_path : String
  content_id : String
  reason : String
  rollback_key : String
  ts : String

/-- `f-string {n:06d}`. -/
def pad6 (n : Nat) : String :=
  let r := toString n
  ⟨List.replicate (6 - r.length) '0'⟩ ++ r

/-- Candidate quarantine destination for a source path:
    `ensure_unique(src.parent / ".deduplab_duplicates" / src.name)`. -/
def planDst (fs : FS) (src : String) : String :=
  ensureUniqueD fs (joinDir (joinDir (dirName src) ".deduplab_duplicates") (baseName src))

/-- Lexicographic code-point comparison (Python `<` on strings). -/
def charsLt : List Char → List Char → Bool
  | [], [] => false
  | [], _ :: _ => true
  | _ :: _, [] => false
  | a :: as, b :: bs =>
    if a.toNat < b.toNat then true
    else if b.toNat < a.toNat then false
    else charsLt as bs

def strLt (a b : String) : Bool := charsLt a.data b.data

/-- Stable insertion of a string into a sorted list (insert after equals). -/
def insertSorted (x : String) : List String → List String
  | [] => [x]
  | y :: t => if strLt x y then x :: y :: t else y :: insertSorted x t

/-- Stable ascending string sort used for `sorted(paths)`. -/
def sortStrings (l : List String) : List String :=
  l.foldr insertSorted []

/-- Plan rows of one duplicate group `(sha, ctx, "p1|p2|…")`, starting at
    rollback ordinal `rbk0`; the lexicographically least path is the keeper. -/
def planGroup (fs : FS) (now : String) (g : String × String × String) (rbk0 : Nat) :
    List PlanRow × Nat :=
  let paths := sortStrings ((splitOnChar '|' g.2.2.data).map (fun l => (⟨l⟩ : String)))
  match paths with
  | [] => ([], rbk0)        -- unreachable: splitOn never returns []
  | _keeper :: srcs =>
    (srcs.mapIdx (fun i src =>
      { status := "planned", op := "move", src_path := src,
        dst_path := planDst fs src,
        content_id := "b3:sha256:" ++ g.1 ++ ":ctx:" ++ g.2.1,
        reason := "dedup",
        rollback_key := "rbk:" ++ pad6 (rbk0 + i),
        ts := now }),
     rbk0 + srcs.length)

/-- Accumulate one duplicate group into the plan (`rows` and the running
    rollback ordinal). -/
def planStep (fs : FS) (now : String) (acc : List PlanRow × Nat)
    (g : String × String × String) : List PlanRow × Nat :=
  let gr := planGroup fs now g acc.2
  (acc.1 ++ gr.1, gr.2)

/-- All plan rows of `cmd_plan` for the duplicate groups `dups`, against the
    live filesystem `fs`, with `ts` stamped from the single `_iso_now()` call. -/
def planRows (dups : List (String × String × String)) (fs : FS) (now : String) :
    List PlanRow :=
  (dups.foldl (planStep fs now) (([] : List PlanRow), 0)).1

/-- Does a CSV field need quoting (QUOTE_MINIMAL)? -/
def csvNeedsQuote (s : String) : Bool :=
  s.data.any (fun c => c = ',' ∨ c = '"' ∨ c = '\n' ∨ c = '\r')

/-- Double every quote character. -/
def csvEscape (s : String) : String :=
  ⟨s.data.foldr (fun c acc => if c = '"' then '"' :: '"' :: acc else c :: acc) []⟩

def csvField (s : String) : String :=
  if csvNeedsQuote s then "\"" ++ csvEscape s ++ "\"" else s

/-- One CSV record with the csv module's default `\r\n` terminator. -/
def csvLine (fields : List String) : String :=
  interSep "," (fields.map csvField) ++ "\r\n"

/-- `planner.write_plan_csv`: header then one record per row, fixed field
    order. -/
def write_plan_csv (rows : List PlanRow) : String :=
  csvLine ["status", "op", "src_path", "dst_path", "content_id", "reason",
           "rollback_key", "ts"] ++
  interSep "" (rows.map (fun r =>
    csvLine [r.status, r.op, r.src_path, r.dst_path, r.content_id, r.reason,
             r.rollback_key, r.ts]))

/-- The bytes `cmd_plan` writes to the plan file. -/
def planCSV (dups : List (String × String × String)) (fs : FS) (now : String) :
    String :=
  write_plan_csv (planRows dups fs now)

/-! ### Same-device applier (`dedupelab/applier.py`) -/

/-- `Path.resolve().anchor`: `resolve()` returns an absolute path, and on POSIX
    every absolute path has anchor `/`. -/
def posixAnchor (_s : String) : String := "/"

/-- Checkpoint move entry of the dedupelab applier: only `src` and `dst`. -/
structure MoveV2 where
  src : String
  dst : String
deriving DecidableEq

/-- `dedupelab.applier.copy_verify_delete` (fault-free I/O): either the
    copy+verify+delete branch when the anchors differ, or `shutil.move`
    followed by `src.stat().st_size if src.exists() else 0`.  `none` models a
    raised exception (missing source). -/
def copy_verify_delete_v2 (fs : FS) (src dst : String) : FS × Option Nat :=
  if posixAnchor src ≠ posixAnchor dst then
    match fsGet fs src with
    | none => (fs, none)
    | some c =>
      let fs1 := fsSet fs dst c                     -- copy + fsync
      (fsRemove fs1 src, some c.length)             -- verify equal, unlink src
  else
    match fsGet fs src with
    | none => (fs, none)                            -- shutil.move raises
    | some c =>
      let fs1 := fsSet (fsRemove fs src) dst c      -- same-device rename
      (fs1, some (match fsGet fs1 src with          -- size read after the move
                  | some c2 => c2.length
                  | none => 0))

structure AppStateV2 where
  fs : FS
  applied : List MoveV2
  attempted : Nat
  skipped : Nat
  errors : Nat
  bytes_moved : Nat

/-- One iteration of the dedupelab `apply_moves` loop. -/
def applyRowV2 (dryRun : Bool) (st : AppStateV2) (row : Row) : AppStateV2 :=
  if row.op ≠ "move" ∨ row.status ≠ "planned" then st
  else
    let st := { st with attempted := st.attempted + 1 }
    if !fsExists st.fs row.src_path then { st with skipped := st.skipped + 1 }
    else
      let dst :=
        if fsExists st.fs row.dst_path then ensureUniqueD st.fs row.dst_path
        else row.dst_path
      if dryRun then st
      else
        match copy_verify_delete_v2 st.fs row.src_path dst with
        | (fs2, some size) =>
          { st with fs := fs2
                    bytes_moved := st.bytes_moved + size
                    applied := st.applied ++ [{ src := row.src_path, dst := dst }] }
        | (fs2, none) => { st with fs := fs2, errors := st.errors + 1 }

/-- Result of `dedupelab.applier.apply_moves`: checkpoint is
    `{ts, moves}` with `moves` entries `{src, dst}` only. -/
structure ApplyResultV2 where
  fs : FS
  moves : List MoveV2
  stats : Stats

/-- `dedupelab.applier.apply_moves`. -/
def apply_moves_v2 (dryRun : Bool) (rows : List Row) (fs : FS) : ApplyResultV2 :=
  let st0 : AppStateV2 :=
    { fs := fs, applied := [], attempted := 0, skipped := 0, errors := 0, bytes_moved := 0 }
  let st := rows.foldl (applyRowV2 dryRun) st0
  { fs := st.fs
    moves := st.applied
    stats := { attempted := st.attempted, succeeded := st.applied.length,
               skipped := st.skipped, errors := st.errors, bytes_moved := st.bytes_moved } }

/-! ### Rollback (`dedupelab/rollback.py`) -/

structure RbState where
  fs : FS
  restored : Nat
  errors : Nat

/-- One entry of the rollback loop: treat `mv.dst` as the current location and
    `mv.src` as the restoration target, uniquified if it already exists; a move
    happens (and `restored` increments) only when the current location exists.
    In this pure model the filesystem operations cannot raise, so the
    `except` counter `errors` never increments. -/
def rollbackStep (st : RbState) (mv : MoveV2) : RbState :=
  let dstRestore :=
    if fsExists st.fs mv.src then ensureUniqueD st.fs mv.src else mv.src
  match fsGet st.fs mv.dst with
  | some c =>
    { fs := fsSet (fsRemove st.fs mv.dst) dstRestore c
      restored := st.restored + 1, errors := st.errors }
  | none => st

/-- `rollback.rollback_from_checkpoint`: walk the checkpoint moves in reverse. -/
def rollback_from_checkpoint (fs : FS) (moves : List MoveV2) : RbState :=
  (moves.reverse).foldl rollbackStep { fs := fs, restored := 0, errors := 0 }

/-! ### Decimal numeral support (for the `ensure_unique` totality proof) -/

/-- Value of a decimal digit character. -/
def digitVal (c : Char) : Nat := c.toNat - 48

/-- Parse a decimal character list (left fold). -/
def parseDec (cs : List Char) : Nat :=
  cs.foldl (fun a c => a * 10 + digitVal c) 0

/-! ## Basic filesystem lemmas -/

theorem fsGet_fsRemove (fs : FS) (p : String) : fsGet (fsRemove fs p) p = none := by
  induction fs with
  | nil => rfl
  | cons e rest ih =>
    obtain ⟨q, c⟩ := e
    by_cases h : q = p
    · simpa [fsRemove, h] using ih
    · simpa [fsRemove, fsGet, h] using ih

theorem fsGet_fsRemove_ne (fs : FS) (p q : String) (h : q ≠ p) :
    fsGet (fsRemove fs p) q = fsGet fs q := by
  induction fs with
  | nil => rfl
  | cons e rest ih =>
    obtain ⟨x, c⟩ := e
    have hpq : ¬ p = q := fun hc => h hc.symm
    by_cases hx : x = p
    · have hxq : ¬ x = q := by rw [hx]; exact hpq
      simp [fsRemove, fsGet, hx, hxq, hpq, ih]
    · by_cases hq : x = q
      · simp [fsRemove, fsGet, hx, hq, hpq, h]
      · simp [fsRemove, fsGet, hx, hq, hpq, ih]

theorem fsGet_fsSet_self (fs : FS) (p : String) (c : Content) :
    fsGet (fsSet fs p c) p = some c := by
  simp [fsSet, fsGet]

theorem fsGet_fsSet_ne (fs : FS) (p : String) (c : Content) (q : String) (h : q ≠ p) :
    fsGet (fsSet fs p c) q = fsGet fs q := by
  have : p ≠ q := fun hc => h hc.symm
  simp [fsSet, fsGet, this, fsGet_fsRemove_ne fs p q h]

theorem fsExists_eq_false_iff (fs : FS) (p : String) :
    fsExists fs p = false ↔ fsGet fs p = none := by
  simp [fsExists, Option.isSome]
  cases fsGet fs p <;> simp

theorem mem_fsKeys_of_fsExists (fs : FS) (p : String) (h : fsExists fs p = true) :
    p ∈ fsKeys fs := by
  induction fs with
  | nil => simp [fsExists, fsGet] at h
  | cons e rest ih =>
    obtain ⟨q, c⟩ := e
    by_cases hq : q = p
    · simp [fsKeys, hq]
    · simp only [fsExists, fsGet, if_neg hq] at h
      simpa [fsKeys] using Or.inr (ih h)

/-! ## Decimal numerals: `Nat.repr` is injective -/

theorem parseDec_foldl (l : List Char) (a : Nat) :
    l.foldl (fun a c => a * 10 + digitVal c) a = a * 10 ^ l.length + parseDec l := by
  induction l generalizing a with
  | nil => simp [parseDec]
  | cons c t ih =>
    show t.foldl _ (a * 10 + digitVal c) = _
    rw [ih (a * 10 + digitVal c)]
    have hp : parseDec (c :: t) = t.foldl (fun a c => a * 10 + digitVal c) (digitVal c) := by
      simp [parseDec]
    rw [hp, ih (digitVal c)]
    simp [List.length_cons, pow_succ]
    ring

theorem digitVal_digitChar (m : Nat) (h : m < 10) :
    digitVal (Nat.digitChar m) = m := by
  interval_cases m <;> decide

theorem parseDec_toDigitsCore (fuel : Nat) :
    ∀ (n : Nat) (l : List Char), n < 10 ^ fuel →
      parseDec (Nat.toDigitsCore 10 fuel n l) = n * 10 ^ l.length + parseDec l := by
  induction fuel with
  | zero =>
    intro n l h
    simp at h
    subst h
    simp [Nat.toDigitsCore]
  | succ fuel ih =>
    intro n l h
    have hm : n % 10 < 10 := Nat.mod_lt _ (by norm_num)
    by_cases hz : n / 10 = 0
    · have hn : n < 10 := by omega
      have : Nat.toDigitsCore 10 (fuel + 1) n l = Nat.digitChar (n % 10) :: l := by
        simp [Nat.toDigitsCore, hz]
      rw [this]
      have hp : parseDec (Nat.digitChar (n % 10) :: l) =
          l.foldl (fun a c => a * 10 + digitVal c) (digitVal (Nat.digitChar (n % 10))) := by
        simp [parseDec]
      rw [hp, parseDec_foldl, digitVal_digitChar _ hm, Nat.mod_eq_of_lt hn]
    · have : Nat.toDigitsCore 10 (fuel + 1) n l =
          Nat.toDigitsCore 10 fuel (n / 10) (Nat.digitChar (n % 10) :: l) := by
        simp [Nat.toDigitsCore, hz]
      rw [this]
      have hdiv : n / 10 < 10 ^ fuel := by
        rw [Nat.div_lt_iff_lt_mul (by norm_num : (0:Nat) < 10)]
        calc n < 10 ^ (fuel + 1) := h
          _ = 10 ^ fuel * 10 := by rw [pow_succ]
      rw [ih (n / 10) _ hdiv]
      have hp : parseDec (Nat.digitChar (n % 10) :: l) =
          l.foldl (fun a c => a * 10 + digitVal c) (digitVal (Nat.digitChar (n % 10))) := by
        simp [parseDec]
      rw [hp, parseDec_foldl, digitVal_digitChar _ hm]
      have : n / 10 * 10 ^ (Nat.digitChar (n % 10) :: l).length
          = n / 10 * 10 * 10 ^ l.length := by
        simp [List.length_cons, pow_succ]; ring
      rw [this]
      have hdm : n / 10 * 10 + n % 10 = n := by omega
      calc n / 10 * 10 * 10 ^ l.length + (n % 10 * 10 ^ l.length + parseDec l)
          = (n / 10 * 10 + n % 10) * 10 ^ l.length + parseDec l := by ring
        _ = n * 10 ^ l.length + parseDec l := by rw [hdm]

theorem parseDec_toDigits (n : Nat) : parseDec (Nat.toDigits 10 n) = n := by
  have h1 : (1 : Nat) < 10 := by norm_num
  have h : n < 10 ^ (n + 1) := by
    calc n < 10 ^ n := Nat.lt_pow_self h1 n
      _ ≤ 10 ^ (n + 1) := Nat.pow_le_pow_right (by norm_num) (Nat.le_succ n)
  have := parseDec_toDigitsCore (n + 1) n [] h
  simpa [Nat.toDigits, parseDec] using this

theorem natRepr_injective : Function.Injective Nat.repr := by
  intro m n h
  have hd : (Nat.toDigits 10 m) = (Nat.toDigits 10 n) := by
    have : (Nat.toDigits 10 m).asString = (Nat.toDigits 10 n).asString := h
    simpa [List.asString] using congrArg String.data this
  have := congrArg parseDec hd
  rwa [parseDec_toDigits, parseDec_toDigits] at this

theorem natToString_injective : ∀ m n : Nat, toString m = toString n → m = n := by
  intro m n h
  exact natRepr_injective h

/-! ## `ensure_unique`: freeness, totality, idempotence -/

theorem strData_append (a b : String) : (a ++ b).data = a.data ++ b.data := rfl

theorem strAppend_left_cancel {a x y : String} (h : a ++ x = a ++ y) : x = y := by
  have hd := congrArg String.data h
  rw [strData_append, strData_append] at hd
  exact String.ext (List.append_cancel_left hd)

theorem joinDir_inj (d : String) {x y : String} (h : joinDir d x = joinDir d y) : x = y := by
  unfold joinDir at h
  by_cases h1 : d = "."
  · simpa [h1] using h
  · by_cases h2 : d = "/"
    · simp only [h1, if_false, h2, if_true] at h
      exact strAppend_left_cancel h
    · simp only [h1, h2, if_false] at h
      exact strAppend_left_cancel h

theorem candName_inj (dst : String) : ∀ i j : Nat, candName dst i = candName dst j → i = j := by
  intro i j h
  unfold candName at h
  have h2 := joinDir_inj _ h
  have hd := congrArg String.data h2
  simp only [strData_append, List.append_assoc] at hd
  have h3 := List.append_cancel_left hd
  have h4 := List.append_cancel_left h3
  have h5 : (toString i).data = (toString j).data := List.append_cancel_right h4
  have h6 : toString i = toString j := by
    have : (⟨(toString i).data⟩ : String) = ⟨(toString j).data⟩ := by rw [h5]
    simpa using this
  exact natToString_injective i j h6

theorem ensureUniqueLoop_free {fs : FS} {dst : String} :
    ∀ {fuel i : Nat} {s : String}, ensureUniqueLoop fs dst fuel i = some s →
      fsExists fs s = false := by
  intro fuel
  induction fuel with
  | zero => intro i s h; simp [ensureUniqueLoop] at h
  | succ fuel ih =>
    intro i s h
    unfold ensureUniqueLoop at h
    by_cases hc : fsExists fs (candName dst i) = true
    · simp only [hc, if_true] at h
      exact ih h
    · have hc' : fsExists fs (candName dst i) = false := by
        cases hx : fsExists fs (candName dst i)
        · rfl
        · exact absurd hx hc
      simp only [hc', Bool.false_eq_true, if_false, Option.some.injEq] at h
      rw [← h]
      exact hc'

theorem ensureUniqueLoop_none {fs : FS} {dst : String} :
    ∀ {fuel i : Nat}, ensureUniqueLoop fs dst fuel i = none →
      ∀ j, i ≤ j → j < i + fuel → fsExists fs (candName dst j) = true := by
  intro fuel
  induction fuel with
  | zero => intro i _ j hij hlt; omega
  | succ fuel ih =>
    intro i h j hij hlt
    unfold ensureUniqueLoop at h
    by_cases hc : fsExists fs (candName dst i) = true
    · simp only [hc, if_true] at h
      by_cases hji : j = i
      · rw [hji]; exact hc
      · exact ih h j (by omega) (by omega)
    · have hc' : fsExists fs (candName dst i) = false := by
        cases hx : fsExists fs (candName dst i)
        · rfl
        · exact absurd hx hc
      simp [hc'] at h

theorem ensure_unique_isSome (fs : FS) (dst : String) :
    (ensure_unique fs dst).isSome = true := by
  unfold ensure_unique
  by_cases hd : fsExists fs dst = true
  · simp only [hd, if_true]
    cases hl : ensureUniqueLoop fs dst (fs.length + 1) 1
    · exfalso
      have hall := ensureUniqueLoop_none hl
      -- the fs.length + 1 distinct candidates would all be keys of fs
      set L : List String :=
        (List.range (fs.length + 1)).map (fun k => candName dst (k + 1)) with hL
      have hnd : L.Nodup := by
        refine List.Nodup.map ?_ (List.nodup_range _)
        intro a b hab
        have := candName_inj dst (a + 1) (b + 1) hab
        omega
      have hsub : ∀ x ∈ L, x ∈ fsKeys fs := by
        intro x hx
        rw [hL] at hx
        obtain ⟨k, hk, rfl⟩ := List.mem_map.mp hx
        have hkr := List.mem_range.mp hk
        exact mem_fsKeys_of_fsExists fs _ (hall (k + 1) (by omega) (by omega))
      have hcard1 : L.toFinset.card = L.length := List.toFinset_card_of_nodup hnd
      have hcard2 : L.toFinset ⊆ (fsKeys fs).toFinset := by
        intro x hx
        rw [List.mem_toFinset] at hx ⊢
        exact hsub x hx
      have hcard3 : L.toFinset.card ≤ (fsKeys fs).toFinset.card :=
        Finset.card_le_card hcard2
      have hcard4 : (fsKeys fs).toFinset.card ≤ (fsKeys fs).length :=
        List.toFinset_card_le _
      have hlen : L.length = fs.length + 1 := by simp [hL]
      have hklen : (fsKeys fs).length = fs.length := by simp [fsKeys]
      omega
    · simp
  · simp [hd]

theorem ensureUniqueD_free (fs : FS) (dst : String) :
    fsGet fs (ensureUniqueD fs dst) = none := by
  unfold ensureUniqueD
  cases hu : ensure_unique fs dst with
  | none =>
    have := ensure_unique_isSome fs dst
    rw [hu] at this
    simp at this
  | some s =>
    simp only [Option.getD_some]
    unfold ensure_unique at hu
    by_cases hd : fsExists fs dst = true
    · simp only [hd, if_true] at hu
      have := ensureUniqueLoop_free hu
      exact (fsExists_eq_false_iff fs s).mp this
    · have hd' : fsExists fs dst = false := by
        cases hx : fsExists fs dst
        · rfl
        · exact absurd hx hd
      simp only [hd', Bool.false_eq_true, if_false, Option.some.injEq] at hu
      rw [← hu]
      exact (fsExists_eq_false_iff fs dst).mp hd'

theorem ensureUniqueD_of_free {fs : FS} {dst : String} (h : fsGet fs dst = none) :
    ensureUniqueD fs dst = dst := by
  have hx : fsExists fs dst = false := (fsExists_eq_false_iff fs dst).mpr h
  unfold ensureUniqueD ensure_unique
  simp [hx]

/-! ## Claim C8 -/

/-- C8: for every filesystem state and path `P`, with no mutation between the
calls, `ensure_unique (ensure_unique P) = ensure_unique P` — the result of
`ensure_unique` is a fixed point because it names a non-existent path. -/
theorem C8_ensure_unique_idempotent (fs : FS) (p : String) :
    ensureUniqueD fs (ensureUniqueD fs p) = ensureUniqueD fs p ∧
    fsGet fs (ensureUniqueD fs p) = none :=
  ⟨ensureUniqueD_of_free (ensureUniqueD_free fs p), ensureUniqueD_free fs p⟩

/-! ## Claim C2 -/

/-- C2 (code bug): for the root `/r` holding exactly the ordinary files
`/r/a.txt` and `/r/b.txt`, the classifier does not return `unarchived`:
walking root-ward it reaches the ancestor `/`, whose name is empty, so
`Path.with_name` raises `ValueError`; the scan loop catches the exception and
drops both files, yielding 0 records instead of the claimed 2. -/
theorem C2_classifier_raises_at_root :
    is_inside_archive [["r", "a.txt"], ["r", "b.txt"]] ["r", "a.txt"] =
      Except.error () ∧
    is_inside_archive [["r", "a.txt"], ["r", "b.txt"]] ["r", "b.txt"] =
      Except.error () ∧
    threaded_hash_records [["r", "a.txt"], ["r", "b.txt"]]
      [["r", "a.txt"], ["r", "b.txt"]] = [] :=
  ⟨rfl, rfl, by decide⟩

/-! ## Claim C4 -/

/-- C4 (code bug): the same-device rename applier is externally
distinguishable from the strict three-phase applier.  Moving the 5-byte file
`/r/b.txt`, `dedupelab.applier.apply_moves` reports `bytes_moved = 0` (the
source's size is read after the move, when the source no longer exists) while
the strict applier reports `bytes_moved = 5` for the same plan row; both count
one success. -/
theorem C4_same_device_rename_distinguishable :
    (apply_moves_v2 false
      [{ op := "move", status := "planned", src_path := "/r/b.txt",
         dst_path := "/r/.deduplab_duplicates/b.txt" }]
      [("/r/b.txt", [104, 101, 108, 108, 111])]).stats.bytes_moved = 0 ∧
    (apply_moves_v2 false
      [{ op := "move", status := "planned", src_path := "/r/b.txt",
         dst_path := "/r/.deduplab_duplicates/b.txt" }]
      [("/r/b.txt", [104, 101, 108, 108, 111])]).stats.succeeded = 1 ∧
    (apply_moves (fun _ => "") 7 false
      [({ op := "move", status := "planned", src_path := "/r/b.txt",
          dst_path := "/r/.deduplab_duplicates/b.txt" },
        noFaults [104, 101, 108, 108, 111])]
      [("/r/b.txt", [104, 101, 108, 108, 111])]).stats.bytes_moved = 5 ∧
    (apply_moves (fun _ => "") 7 false
      [({ op := "move", status := "planned", src_path := "/r/b.txt",
          dst_path := "/r/.deduplab_duplicates/b.txt" },
        noFaults [104, 101, 108, 108, 111])]
      [("/r/b.txt", [104, 101, 108, 108, 111])]).stats.succeeded = 1 := by
  refine ⟨by decide, by decide, by decide, by decide⟩

/-! ## Claim C10 -/

theorem rollbackStep_of_missing (st : RbState) (mv : MoveV2)
    (h : fsGet st.fs mv.dst = none) : rollbackStep st mv = st := by
  unfold rollbackStep
  rw [h]

theorem foldl_rollbackStep_le (l : List MoveV2) :
    ∀ st : RbState,
      (l.foldl rollbackStep st).restored + (l.foldl rollbackStep st).errors ≤
        st.restored + st.errors + l.length := by
  induction l with
  | nil => intro st; simp
  | cons mv t ih =>
    intro st
    have hs : (rollbackStep st mv).restored + (rollbackStep st mv).errors ≤
        st.restored + st.errors + 1 := by
      unfold rollbackStep
      cases hg : fsGet st.fs mv.dst <;> simp
      omega
    have := ih (rollbackStep st mv)
    simp only [List.foldl_cons, List.length_cons]
    omega

theorem foldl_rollbackStep_missing (l : List MoveV2) :
    ∀ st : RbState, (∀ mv ∈ l, fsGet st.fs mv.dst = none) →
      l.foldl rollbackStep st = st := by
  induction l with
  | nil => intro st _; rfl
  | cons mv t ih =>
    intro st h
    have h1 : rollbackStep st mv = st :=
      rollbackStep_of_missing st mv (h mv (List.mem_cons_self mv t))
    simp only [List.foldl_cons, h1]
    exact ih st (fun m hm => h m (List.mem_cons_of_mem mv hm))

/-- C10: `rollback_from_checkpoint` silently ignores a move entry whose `dst`
no longer exists: such an entry changes nothing (neither `restored` nor
`errors`), `restored + errors` never exceeds the number of moves, and a fully
already-rolled-back checkpoint yields `restored = 0, errors = 0` with the
filesystem untouched. -/
theorem C10_rollback_ignores_missing_dst :
    (∀ (st : RbState) (mv : MoveV2), fsGet st.fs mv.dst = none →
       rollbackStep st mv = st) ∧
    (∀ (fs : FS) (moves : List MoveV2),
       (rollback_from_checkpoint fs moves).restored +
         (rollback_from_checkpoint fs moves).errors ≤ moves.length) ∧
    (∀ (fs : FS) (moves : List MoveV2), (∀ mv ∈ moves, fsGet fs mv.dst = none) →
       rollback_from_checkpoint fs moves =
         { fs := fs, restored := 0, errors := 0 }) := by
  refine ⟨rollbackStep_of_missing, ?_, ?_⟩
  · intro fs moves
    have := foldl_rollbackStep_le moves.reverse
      { fs := fs, restored := 0, errors := 0 }
    unfold rollback_from_checkpoint
    simpa using this
  · intro fs moves h
    unfold rollback_from_checkpoint
    exact foldl_rollbackStep_missing moves.reverse _
      (fun mv hm => h mv (List.mem_reverse.mp hm))

/-- Witness for C10 at a concrete already-rolled-back checkpoint. -/
theorem C10_witness :
    rollback_from_checkpoint []
        [{ src := "/r/b.txt", dst := "/r/.deduplab_duplicates/b.txt" }] =
      { fs := [], restored := 0, errors := 0 } :=
  C10_rollback_ignores_missing_dst.2.2 []
    [{ src := "/r/b.txt", dst := "/r/.deduplab_duplicates/b.txt" }] (by decide)

/-! ## Claim C5 -/

/-- C5 (counterexample): with an unchanged store and filesystem but a clock
that has advanced one second between the two runs, the two plan CSV outputs
are not byte-identical — the `ts` field differs. -/
theorem C5_counterexample :
    planCSV [("aa", "unarchived", "/r/b.txt|/r/a.txt")] []
        "2025-01-01T00:00:00Z" ≠
      planCSV [("aa", "unarchived", "/r/b.txt|/r/a.txt")] []
        "2025-01-01T00:00:01Z" := by
  decide

/-! ## Applier loop analysis (claims C6 and C9) -/

theorem applyRow_cases (hash : Content → String) (now : Nat) (dryRun : Bool)
    (st : AppState) (rf : Row × Faults) :
    applyRow hash now dryRun st rf = st ∨
    applyRow hash now dryRun st rf =
      { st with attempted := st.attempted + 1, skipped := st.skipped + 1 } ∨
    (dryRun = true ∧ applyRow hash now dryRun st rf =
      { st with attempted := st.attempted + 1 }) ∨
    (dryRun = false ∧ rf.1.op = "move" ∧ rf.1.status = "planned" ∧
      ∃ fs2 size dst, applyRow hash now dryRun st rf =
        { st with attempted := st.attempted + 1, fs := fs2,
                  bytes_moved := st.bytes_moved + size,
                  applied := st.applied ++
                    [{ src := rf.1.src_path, dst := dst, size := size,
                       timestamp := now }] }) ∨
    (dryRun = false ∧ ∃ fs2, applyRow hash now dryRun st rf =
      { st with attempted := st.attempted + 1, fs := fs2,
                errors := st.errors + 1 }) := by
  unfold applyRow
  by_cases hg : rf.1.op ≠ "move" ∨ rf.1.status ≠ "planned"
  · left
    simp only [if_pos hg]
  · push_neg at hg
    simp only [if_neg (show ¬ (rf.1.op ≠ "move" ∨ rf.1.status ≠ "planned") by
      push_neg; exact hg)]
    cases hex : fsExists st.fs rf.1.src_path with
    | false =>
      right; left
      simp [hex]
    | true =>
      cases hdry : dryRun with
      | true =>
        right; right; left
        refine ⟨rfl, ?_⟩
        simp [hex]
      | false =>
        cases hc : copy_verify_delete hash rf.2 st.fs rf.1.src_path
            (if fsExists st.fs rf.1.dst_path then ensureUniqueD st.fs rf.1.dst_path
             else rf.1.dst_path) with
        | mk fs2 o =>
          cases o with
          | some size =>
            right; right; right; left
            exact ⟨rfl, hg.1, hg.2, fs2, size,
              (if fsExists st.fs rf.1.dst_path then ensureUniqueD st.fs rf.1.dst_path
               else rf.1.dst_path), by simp [hex, hc]⟩
          | none =>
            right; right; right; right
            exact ⟨rfl, fs2, by simp [hex, hc]⟩

theorem foldl_applyRow_partition (hash : Content → String) (now : Nat)
    (rows : List (Row × Faults)) :
    ∀ st : AppState, st.attempted = st.applied.length + st.skipped + st.errors →
      (rows.foldl (applyRow hash now false) st).attempted =
        (rows.foldl (applyRow hash now false) st).applied.length +
          (rows.foldl (applyRow hash now false) st).skipped +
          (rows.foldl (applyRow hash now false) st).errors := by
  induction rows with
  | nil => intro st h; simpa using h
  | cons rf t ih =>
    intro st h
    simp only [List.foldl_cons]
    refine ih (applyRow hash now false st rf) ?_
    rcases applyRow_cases hash now false st rf with
      h1 | h1 | ⟨hd, _⟩ | ⟨_, _, _, fs2, size, dst, h1⟩ | ⟨_, fs2, h1⟩
    · rw [h1]; exact h
    · rw [h1]; simp; omega
    · exact absurd hd (by simp)
    · rw [h1]; simp; omega
    · rw [h1]; simp; omega

/-- C9: for every `apply_moves` call with `dry_run = False`, the returned
statistics satisfy `attempted = succeeded + skipped + errors`: every processed
plan row (op `move`, status `planned`) lands in exactly one outcome counter. -/
theorem C9_stats_partition (hash : Content → String) (now : Nat)
    (rows : List (Row × Faults)) (fs : FS) :
    (apply_moves hash now false rows fs).stats.attempted =
      (apply_moves hash now false rows fs).stats.succeeded +
        (apply_moves hash now false rows fs).stats.skipped +
        (apply_moves hash now false rows fs).stats.errors := by
  unfold apply_moves
  exact foldl_applyRow_partition hash now rows _ (by simp)

theorem applyRow_dry_applied (hash : Content → String) (now : Nat)
    (st : AppState) (rf : Row × Faults) :
    (applyRow hash now true st rf).applied = st.applied := by
  rcases applyRow_cases hash now true st rf with
    h1 | h1 | ⟨_, h1⟩ | ⟨hd, _⟩ | ⟨hd, _⟩
  · rw [h1]
  · rw [h1]
  · rw [h1]
  · exact absurd hd (by simp)
  · exact absurd hd (by simp)

theorem foldl_applyRow_dry_applied (hash : Content → String) (now : Nat)
    (rows : List (Row × Faults)) :
    ∀ st : AppState, (rows.foldl (applyRow hash now true) st).applied = st.applied := by
  induction rows with
  | nil => intro st; rfl
  | cons rf t ih =>
    intro st
    simp only [List.foldl_cons]
    rw [ih (applyRow hash now true st rf), applyRow_dry_applied]

theorem foldl_applyRow_provenance (hash : Content → String) (now : Nat)
    (dryRun : Bool) (rows : List (Row × Faults)) :
    ∀ st : AppState, ∀ m ∈ (rows.foldl (applyRow hash now dryRun) st).applied,
      m ∈ st.applied ∨
        ∃ rf ∈ rows, rf.1.op = "move" ∧ rf.1.status = "planned" ∧
          m.src = rf.1.src_path := by
  induction rows with
  | nil => intro st m hm; exact Or.inl hm
  | cons rf t ih =>
    intro st m hm
    simp only [List.foldl_cons] at hm
    rcases ih (applyRow hash now dryRun st rf) m hm with hin | ⟨rf2, hrf2, hp⟩
    · rcases applyRow_cases hash now dryRun st rf with
        h1 | h1 | ⟨_, h1⟩ | ⟨_, hop, hst, fs2, size, dst, h1⟩ | ⟨_, fs2, h1⟩
      · rw [h1] at hin; exact Or.inl hin
      · rw [h1] at hin; exact Or.inl hin
      · rw [h1] at hin; exact Or.inl hin
      · rw [h1] at hin
        simp only [List.mem_append, List.mem_singleton] at hin
        rcases hin with hin | hin
        · exact Or.inl hin
        · refine Or.inr ⟨rf, List.mem_cons_self rf t, hop, hst, ?_⟩
          rw [hin]
      · rw [h1] at hin; exact Or.inl hin
    · exact Or.inr ⟨rf2, List.mem_cons_of_mem rf hrf2, hp⟩

/-- C6: for every apply run, `succeeded` equals the number of checkpoint
moves; in dry-run the checkpoint is still written with `moves = []` and
`succeeded = 0`; and every recorded move stems from a processed plan row
(op `move`, status `planned`) whose `src_path` it carries. -/
theorem C6_checkpoint_completeness (hash : Content → String) (now : Nat)
    (dryRun : Bool) (rows : List (Row × Faults)) (fs : FS) :
    (apply_moves hash now dryRun rows fs).stats.succeeded =
      (apply_moves hash now dryRun rows fs).checkpoint.moves.length ∧
    ((apply_moves hash now true rows fs).checkpoint.moves = [] ∧
      (apply_moves hash now true rows fs).stats.succeeded = 0) ∧
    (∀ m ∈ (apply_moves hash now dryRun rows fs).checkpoint.moves,
      ∃ rf ∈ rows, rf.1.op = "move" ∧ rf.1.status = "planned" ∧
        m.src = rf.1.src_path) := by
  refine ⟨rfl, ⟨?_, ?_⟩, ?_⟩
  · unfold apply_moves
    simpa using foldl_applyRow_dry_applied hash now rows _
  · unfold apply_moves
    simpa using congrArg List.length (foldl_applyRow_dry_applied hash now rows
      { fs := fs, applied := [], attempted := 0, skipped := 0, errors := 0,
        bytes_moved := 0 })
  · intro m hm
    have := foldl_applyRow_provenance hash now dryRun rows
      { fs := fs, applied := [], attempted := 0, skipped := 0, errors := 0,
        bytes_moved := 0 } m (by simpa [apply_moves] using hm)
    simpa using this

/-- Witness for C6: a concrete successful non-dry run whose single checkpoint
move is traced back to its plan row. -/
theorem C6_witness :
    ∃ rf ∈ [(({ op := "move", status := "planned", src_path := "/r/b.txt",
                dst_path := "/r/.deduplab_duplicates/b.txt" } : Row),
             noFaults [104, 101, 108, 108, 111])],
      rf.1.op = "move" ∧ rf.1.status = "planned" ∧
        ({ src := "/r/b.txt", dst := "/r/.deduplab_duplicates/b.txt", size := 5,
           timestamp := 7 } : MoveRec).src = rf.1.src_path :=
  (C6_checkpoint_completeness (fun _ => "") 7 false
      [({ op := "move", status := "planned", src_path := "/r/b.txt",
          dst_path := "/r/.deduplab_duplicates/b.txt" }, noFaults [104, 101, 108, 108, 111])]
      [("/r/b.txt", [104, 101, 108, 108, 111])]).2.2
    { src := "/r/b.txt", dst := "/r/.deduplab_duplicates/b.txt", size := 5,
      timestamp := 7 } (by decide)

/-! ## Claim C3 -/

theorem matchingRecs_mem {recs : List FileRec} {sha ctx : String} {r : FileRec}
    (h : r ∈ matchingRecs recs sha ctx) :
    r ∈ recs ∧ r.sha256 = sha ∧ r.context_tag = ctx := by
  have := List.mem_filter.mp h
  exact ⟨this.1, of_decide_eq_true this.2⟩

/-- C3: `get_duplicates` returns exactly the `(sha256, context_tag)` groups
with at least two members, with the member paths joined by `|`; membership of
a path in a group's members forces the record's sha and tag to be the group's,
so two records with equal sha but different context tags never share a
group. -/
theorem C3_get_duplicates_characterization (recs : List FileRec)
    (hnd : (recs.map FileRec.path).Nodup) (sha ctx s : String) :
    ((sha, ctx, s) ∈ get_duplicates recs ↔
      2 ≤ (matchingRecs recs sha ctx).length ∧
      s = interSep "|" ((matchingRecs recs sha ctx).map FileRec.path)) ∧
    (∀ r ∈ recs, r.path ∈ (matchingRecs recs sha ctx).map FileRec.path →
      r.sha256 = sha ∧ r.context_tag = ctx) ∧
    (∀ r1 ∈ recs, ∀ r2 ∈ recs, r1.sha256 = r2.sha256 →
      r1.context_tag ≠ r2.context_tag →
      ¬ (r1.path ∈ (matchingRecs recs sha ctx).map FileRec.path ∧
         r2.path ∈ (matchingRecs recs sha ctx).map FileRec.path)) := by
  have tagOf : ∀ r ∈ recs, r.path ∈ (matchingRecs recs sha ctx).map FileRec.path →
      r.sha256 = sha ∧ r.context_tag = ctx := by
    intro r hr hp
    obtain ⟨r2, hr2, hpath⟩ := List.mem_map.mp hp
    obtain ⟨hr2recs, hsha, hctx⟩ := matchingRecs_mem hr2
    have : r2 = r := List.inj_on_of_nodup_map hnd hr2recs hr hpath
    rw [← this]
    exact ⟨hsha, hctx⟩
  refine ⟨⟨?_, ?_⟩, tagOf, ?_⟩
  · intro h
    obtain ⟨⟨k1, k2⟩, hk, hfk⟩ := List.mem_filterMap.mp h
    dsimp only at hfk
    split at hfk
    · next hcond =>
      simp only [Option.some.injEq, Prod.mk.injEq] at hfk
      obtain ⟨h1, h2, h3⟩ := hfk
      subst h1
      subst h2
      refine ⟨by simpa using hcond, h3.symm⟩
    · exact absurd hfk (by simp)
  · rintro ⟨hlen, hs⟩
    have hne : matchingRecs recs sha ctx ≠ [] := by
      intro hnil
      rw [hnil] at hlen
      simp at hlen
    obtain ⟨r, hr⟩ := List.exists_mem_of_ne_nil _ hne
    obtain ⟨hrrecs, hsha, hctx⟩ := matchingRecs_mem hr
    refine List.mem_filterMap.mpr ⟨(sha, ctx), ?_, ?_⟩
    · refine List.mem_dedup.mpr (List.mem_map.mpr ⟨r, hrrecs, ?_⟩)
      rw [recKey, hsha, hctx]
    · have hlen2 : 2 ≤ ((matchingRecs recs sha ctx).map (fun r => r.path)).length := by
        simpa using hlen
      rw [if_pos hlen2, hs]
  · rintro r1 h1 r2 h2 hsha hctx ⟨hp1, hp2⟩
    have t1 := tagOf r1 h1 hp1
    have t2 := tagOf r2 h2 hp2
    exact hctx (t1.2.trans t2.2.symm)

/-- Witness for C3: a store with two `unarchived` copies of a content and one
`archived` copy; the duplicate query returns the unarchived pair only. -/
theorem C3_witness :
    (([{ path := "/r/a.txt", size := 5, mtime := 0, sha256 := "aa",
         mime := "text/plain", context_tag := "unarchived" },
       { path := "/r/b.txt", size := 5, mtime := 0, sha256 := "aa",
         mime := "text/plain", context_tag := "unarchived" },
       { path := "/r/c.txt", size := 5, mtime := 0, sha256 := "aa",
         mime := "text/plain", context_tag := "archived" }].map FileRec.path).Nodup) ∧
    ("aa", "unarchived", "/r/a.txt|/r/b.txt") ∈ get_duplicates
      [{ path := "/r/a.txt", size := 5, mtime := 0, sha256 := "aa",
         mime := "text/plain", context_tag := "unarchived" },
       { path := "/r/b.txt", size := 5, mtime := 0, sha256 := "aa",
         mime := "text/plain", context_tag := "unarchived" },
       { path := "/r/c.txt", size := 5, mtime := 0, sha256 := "aa",
         mime := "text/plain", context_tag := "archived" }] :=
  ⟨by decide,
   (C3_get_duplicates_characterization
      [{ path := "/r/a.txt", size := 5, mtime := 0, sha256 := "aa",
         mime := "text/plain", context_tag := "unarchived" },
       { path := "/r/b.txt", size := 5, mtime := 0, sha256 := "aa",
         mime := "text/plain", context_tag := "unarchived" },
       { path := "/r/c.txt", size := 5, mtime := 0, sha256 := "aa",
         mime := "text/plain", context_tag := "archived" }]
      (by decide) "aa" "unarchived" "/r/a.txt|/r/b.txt").1.mpr (by decide)⟩

/-! ## Claim C5 (amended part) -/

theorem planGroup_ts (fs : FS) (now1 now2 : String) (g : String × String × String)
    (rbk : Nat) :
    (planGroup fs now1 g rbk).1 =
      ((planGroup fs now2 g rbk).1).map (fun r => { r with ts := now1 }) ∧
    (planGroup fs now1 g rbk).2 = (planGroup fs now2 g rbk).2 := by
  unfold planGroup
  cases hp : sortStrings ((splitOnChar '|' g.2.2.data).map (fun l => (⟨l⟩ : String))) with
  | nil => simp
  | cons keeper srcs =>
    constructor
    · dsimp only
      rw [List.mapIdx_eq_enum_map, List.mapIdx_eq_enum_map, List.map_map]
      rfl
    · rfl

theorem planRows_foldl_ts (fs : FS) (now1 now2 : String) :
    ∀ (dups : List (String × String × String)) (acc1 acc2 : List PlanRow × Nat),
      acc1.1 = acc2.1.map (fun r => { r with ts := now1 }) → acc1.2 = acc2.2 →
      (dups.foldl (planStep fs now1) acc1).1 =
        ((dups.foldl (planStep fs now2) acc2).1).map (fun r => { r with ts := now1 }) := by
  intro dups
  induction dups with
  | nil =>
    intro acc1 acc2 h1 h2
    simpa using h1
  | cons g t ih =>
    intro acc1 acc2 h1 h2
    simp only [List.foldl_cons]
    refine ih _ _ ?_ ?_
    · unfold planStep
      dsimp only
      rw [List.map_append, h1, h2, (planGroup_ts fs now1 now2 g acc2.2).1]
    · unfold planStep
      dsimp only
      rw [h2, (planGroup_ts fs now1 now2 g acc2.2).2]

/-- C5 (amended): two Planner runs over the same Store contents and the same
filesystem produce the same rows in every field except `ts` (same keepers,
destinations and rollback keys); the CSV outputs are byte-identical exactly
when both runs observe the same clock second. -/
theorem C5_amended_determinism_modulo_ts (dups : List (String × String × String))
    (fs : FS) (now1 now2 : String) :
    planRows dups fs now1 =
      (planRows dups fs now2).map (fun r => { r with ts := now1 }) ∧
    (now1 = now2 → planCSV dups fs now1 = planCSV dups fs now2) := by
  constructor
  · unfold planRows
    exact planRows_foldl_ts fs now1 now2 dups ([], 0) ([], 0) rfl rfl
  · intro h
    rw [h]

/-- Witness for C5 (amended): two runs at the same clock second produce the
same plan CSV bytes. -/
theorem C5_witness :
    planCSV [("aa", "unarchived", "/r/b.txt|/r/a.txt")] []
        "2025-01-01T00:00:00Z" =
      planCSV [("aa", "unarchived", "/r/b.txt|/r/a.txt")] []
        "2025-01-01T00:00:00Z" :=
  (C5_amended_determinism_modulo_ts [("aa", "unarchived", "/r/b.txt|/r/a.txt")]
    [] "2025-01-01T00:00:00Z" "2025-01-01T00:00:00Z").2 rfl

/-! ## Claim C7 -/

theorem startsWithChars_append_self (a : List Char) :
    ∀ b : List Char, startsWithChars (a ++ b) a = true := by
  induction a with
  | nil =>
    intro b
    cases b <;> rfl
  | cons c t ih =>
    intro b
    simp [startsWithChars, ih b]

theorem endsWithTmp_append (x : String) : endsWithTmp (x ++ ".tmp") = true := by
  unfold endsWithTmp
  rw [strData_append, List.reverse_append]
  exact startsWithChars_append_self _ _

/-- C7 (counterexample): a manually constructed plan row with
`dst_path = src_path` is not treated as an error: the run reports
`errors = 0`, `succeeded = 1`, and the content survives at the uniquified
destination `/r/f (1).txt`. -/
theorem C7_counterexample :
    (apply_moves (fun _ => "") 7 false
      [({ op := "move", status := "planned", src_path := "/r/f.txt",
          dst_path := "/r/f.txt" }, noFaults [104, 105])]
      [("/r/f.txt", [104, 105])]).stats.errors = 0 ∧
    (apply_moves (fun _ => "") 7 false
      [({ op := "move", status := "planned", src_path := "/r/f.txt",
          dst_path := "/r/f.txt" }, noFaults [104, 105])]
      [("/r/f.txt", [104, 105])]).stats.succeeded = 1 ∧
    fsGet (apply_moves (fun _ => "") 7 false
      [({ op := "move", status := "planned", src_path := "/r/f.txt",
          dst_path := "/r/f.txt" }, noFaults [104, 105])]
      [("/r/f.txt", [104, 105])]).fs "/r/f (1).txt" = some [104, 105] := by
  refine ⟨by decide, by decide, by decide⟩

/-- C7 (amended): a fault-free apply of a manually constructed row with
`dst_path = src_path` (source not itself a `.tmp` file) does not destroy the
file's content: the destination is redirected by the uniqueness rule to a
fresh path different from the source, the content survives there, and the row
is counted as `succeeded`, not as an error. -/
theorem C7_amended_self_move_succeeds (hash : Content → String) (fs : FS)
    (row : Row) (c : Content) (now : Nat)
    (hop : row.op = "move") (hst : row.status = "planned")
    (heq : row.dst_path = row.src_path)
    (hsrc : fsGet fs row.src_path = some c)
    (hnt : endsWithTmp row.src_path = false) :
    (apply_moves hash now false [(row, noFaults c)] fs).stats.errors = 0 ∧
    (apply_moves hash now false [(row, noFaults c)] fs).stats.succeeded = 1 ∧
    ∃ d, d ≠ row.src_path ∧
      fsGet (apply_moves hash now false [(row, noFaults c)] fs).fs d = some c := by
  have hex : fsExists fs row.src_path = true := by
    unfold fsExists
    rw [hsrc]
    rfl
  set d := ensureUniqueD fs row.src_path with hd
  have hfree : fsGet fs d = none := ensureUniqueD_free fs row.src_path
  have hdne : d ≠ row.src_path := by
    intro h
    rw [h, hsrc] at hfree
    exact Option.noConfusion hfree
  have hsrc_ne_tmp : row.src_path ≠ tmpPath d := by
    intro h
    have := endsWithTmp_append d
    rw [← tmpPath, ← h, hnt] at this
    exact Bool.noConfusion this
  have hcvd : copy_verify_delete hash (noFaults c) fs row.src_path d =
      (fsRemove (fsSet (fsRemove (fsSet fs (tmpPath d) c) (tmpPath d)) d c)
        row.src_path, some c.length) := by
    unfold copy_verify_delete noFaults
    rw [hsrc]
    dsimp only
    rw [fsGet_fsSet_ne fs (tmpPath d) c row.src_path hsrc_ne_tmp, hsrc]
    simp
  have happ : apply_moves hash now false [(row, noFaults c)] fs =
      { fs := fsRemove (fsSet (fsRemove (fsSet fs (tmpPath d) c) (tmpPath d)) d c)
          row.src_path
        checkpoint :=
          { timestamp := now, dry_run := false
            statistics := { attempted := 1, succeeded := 1, skipped := 0,
                            errors := 0, bytes_moved := c.length }
            moves := [{ src := row.src_path, dst := d, size := c.length,
                        timestamp := now }] }
        stats := { attempted := 1, succeeded := 1, skipped := 0, errors := 0,
                   bytes_moved := c.length } } := by
    unfold apply_moves
    simp only [List.foldl_cons, List.foldl_nil]
    unfold applyRow
    simp only [hop, hst, ne_eq, not_true_eq_false, or_self, if_false, heq, hex,
      Bool.not_true, if_true, ← hd, hcvd]
    simp
  refine ⟨by rw [happ], by rw [happ], ⟨d, hdne, ?_⟩⟩
  rw [happ]
  dsimp only
  rw [fsGet_fsRemove_ne _ row.src_path d hdne, fsGet_fsSet_self]

/-- Witness for C7 (amended) at the counterexample's concrete input. -/
theorem C7_witness :
    endsWithTmp "/r/f.txt" = false ∧
    ((apply_moves (fun _ => "") 7 false
        [({ op := "move", status := "planned", src_path := "/r/f.txt",
            dst_path := "/r/f.txt" }, noFaults [104, 105])]
        [("/r/f.txt", [104, 105])]).stats.errors = 0 ∧
     (apply_moves (fun _ => "") 7 false
        [({ op := "move", status := "planned", src_path := "/r/f.txt",
            dst_path := "/r/f.txt" }, noFaults [104, 105])]
        [("/r/f.txt", [104, 105])]).stats.succeeded = 1 ∧
     ∃ d, d ≠ ({ op := "move", status := "planned", src_path := "/r/f.txt",
                 dst_path := "/r/f.txt" } : Row).src_path ∧
       fsGet (apply_moves (fun _ => "") 7 false
          [({ op := "move", status := "planned", src_path := "/r/f.txt",
              dst_path := "/r/f.txt" }, noFaults [104, 105])]
          [("/r/f.txt", [104, 105])]).fs d = some [104, 105]) :=
  ⟨by decide,
   C7_amended_self_move_succeeds (fun _ => "") [("/r/f.txt", [104, 105])]
     { op := "move", status := "planned", src_path := "/r/f.txt",
       dst_path := "/r/f.txt" } [104, 105] 7 rfl rfl rfl (by decide) (by decide)⟩

/-! ## Claim C1 -/

theorem tmpPath_ne (dst : String) : tmpPath dst ≠ dst := by
  intro h
  have hd := congrArg String.data h
  rw [tmpPath, strData_append] at hd
  have hlen := congrArg List.length hd
  rw [List.length_append] at hlen
  have h4 : (".tmp".data).length = 4 := rfl
  omega

/-- C1: `copy_verify_delete` removes the source only after a copy whose hash
equals the source's has been fsynced and renamed to the final destination:
on every error (`none`, i.e. a raised `RuntimeError` from copy, fsync, verify
or rename) the source still holds its original content and the temporary file
is gone; on success the destination holds a hash-equal copy, the temporary
file is gone, the returned size is the source size, and the source is removed
exactly when the final unlink succeeded (if it fails the row still succeeds
and the source survives). -/
theorem C1_three_phase_commit_safety (hash : Content → String) (f : Faults)
    (fs : FS) (src dst : String) (c : Content)
    (hsrc : fsGet fs src = some c)
    (htmp : src ≠ tmpPath dst) (hdst : src ≠ dst) :
    ((copy_verify_delete hash f fs src dst).2 = none →
      fsGet (copy_verify_delete hash f fs src dst).1 src = some c ∧
      fsGet (copy_verify_delete hash f fs src dst).1 (tmpPath dst) = none) ∧
    (∀ n, (copy_verify_delete hash f fs src dst).2 = some n →
      n = c.length ∧
      fsGet (copy_verify_delete hash f fs src dst).1 (tmpPath dst) = none ∧
      (∃ w, fsGet (copy_verify_delete hash f fs src dst).1 dst = some w ∧
        hash w = hash c) ∧
      (f.unlinkOk = true →
        fsGet (copy_verify_delete hash f fs src dst).1 src = none) ∧
      (f.unlinkOk = false →
        fsGet (copy_verify_delete hash f fs src dst).1 src = some c)) := by
  unfold copy_verify_delete
  rw [hsrc]
  dsimp only
  cases hcw : f.copyWrites with
  | none =>
    constructor
    · intro _
      constructor
      · rw [fsGet_fsRemove_ne _ _ _ htmp]
        exact hsrc
      · exact fsGet_fsRemove _ _
    · intro n hn
      exact absurd hn (by simp)
  | some w =>
    have hs1 : fsGet (fsSet fs (tmpPath dst) w) src = some c := by
      rw [fsGet_fsSet_ne _ _ _ _ htmp]
      exact hsrc
    cases hsy : f.fsyncOk with
    | false =>
      simp only [Bool.not_false, if_true]
      constructor
      · intro _
        constructor
        · rw [fsGet_fsRemove_ne _ _ _ htmp]
          exact hs1
        · exact fsGet_fsRemove _ _
      · intro n hn
        exact absurd hn (by simp)
    | true =>
      simp only [Bool.not_true, Bool.false_eq_true, if_false]
      rw [hs1]
      by_cases hh : hash c ≠ hash w
      · simp only [if_pos hh]
        constructor
        · intro _
          constructor
          · rw [fsGet_fsRemove_ne _ _ _ htmp]
            exact hs1
          · exact fsGet_fsRemove _ _
        · intro n hn
          exact absurd hn (by simp)
      · simp only [if_neg hh]
        push_neg at hh
        cases hrn : f.renameOk with
        | false =>
          simp only [Bool.not_false, if_true]
          constructor
          · intro _
            constructor
            · rw [fsGet_fsRemove_ne _ _ _ htmp]
              exact hs1
            · exact fsGet_fsRemove _ _
          · intro n hn
            exact absurd hn (by simp)
        | true =>
          simp only [Bool.not_true, Bool.false_eq_true, if_false]
          have hdst_tmp : fsGet (fsSet (fsRemove (fsSet fs (tmpPath dst) w)
              (tmpPath dst)) dst w) (tmpPath dst) = none := by
            rw [fsGet_fsSet_ne _ _ _ _ (tmpPath_ne dst)]
            exact fsGet_fsRemove _ _
          have hdst_get : fsGet (fsSet (fsRemove (fsSet fs (tmpPath dst) w)
              (tmpPath dst)) dst w) dst = some w := fsGet_fsSet_self _ _ _
          have hsrc_get : fsGet (fsSet (fsRemove (fsSet fs (tmpPath dst) w)
              (tmpPath dst)) dst w) src = some c := by
            rw [fsGet_fsSet_ne _ _ _ _ hdst, fsGet_fsRemove_ne _ _ _ htmp]
            exact hs1
          cases hul : f.unlinkOk with
          | true =>
            simp only [if_true]
            constructor
            · intro hn
              exact absurd hn (by simp)
            · intro n hn
              have hnn : n = c.length := by
                simpa using hn.symm
              refine ⟨hnn, ?_, ⟨w, ?_, hh.symm⟩, fun _ => ?_, fun hfalse => ?_⟩
              · rw [fsGet_fsRemove_ne _ _ _ (fun he => htmp he.symm)]
                exact hdst_tmp
              · rw [fsGet_fsRemove_ne _ _ _ (fun he => hdst he.symm)]
                exact hdst_get
              · exact fsGet_fsRemove _ _
              · exact absurd hfalse (by simp)
          | false =>
            simp only [Bool.false_eq_true, if_false]
            constructor
            · intro hn
              exact absurd hn (by simp)
            · intro n hn
              have hnn : n = c.length := by
                simpa using hn.symm
              refine ⟨hnn, hdst_tmp, ⟨w, hdst_get, hh.symm⟩, fun htrue => ?_,
                fun _ => hsrc_get⟩
              exact absurd htrue (by simp)

/-- Witness for C1: a concrete fault-free move of a two-byte file. -/
theorem C1_witness :
    (fsGet [("/r/b.txt", [104, 105])] "/r/b.txt" = some [104, 105] ∧
     "/r/b.txt" ≠ tmpPath "/r/.deduplab_duplicates/b.txt" ∧
     "/r/b.txt" ≠ "/r/.deduplab_duplicates/b.txt") ∧
    (((copy_verify_delete (fun _ => "h") (noFaults [104, 105])
        [("/r/b.txt", [104, 105])] "/r/b.txt" "/r/.deduplab_duplicates/b.txt").2 = none →
      fsGet (copy_verify_delete (fun _ => "h") (noFaults [104, 105])
        [("/r/b.txt", [104, 105])] "/r/b.txt" "/r/.deduplab_duplicates/b.txt").1
          "/r/b.txt" = some [104, 105] ∧
      fsGet (copy_verify_delete (fun _ => "h") (noFaults [104, 105])
        [("/r/b.txt", [104, 105])] "/r/b.txt" "/r/.deduplab_duplicates/b.txt").1
          (tmpPath "/r/.deduplab_duplicates/b.txt") = none) ∧
    (∀ n, (copy_verify_delete (fun _ => "h") (noFaults [104, 105])
        [("/r/b.txt", [104, 105])] "/r/b.txt" "/r/.deduplab_duplicates/b.txt").2 = some n →
      n = ([104, 105] : Content).length ∧
      fsGet (copy_verify_delete (fun _ => "h") (noFaults [104, 105])
        [("/r/b.txt", [104, 105])] "/r/b.txt" "/r/.deduplab_duplicates/b.txt").1
          (tmpPath "/r/.deduplab_duplicates/b.txt") = none ∧
      (∃ w, fsGet (copy_verify_delete (fun _ => "h") (noFaults [104, 105])
        [("/r/b.txt", [104, 105])] "/r/b.txt" "/r/.deduplab_duplicates/b.txt").1
          "/r/.deduplab_duplicates/b.txt" = some w ∧
        (fun _ => "h") w = (fun _ => "h") ([104, 105] : Content)) ∧
      ((noFaults [104, 105]).unlinkOk = true →
        fsGet (copy_verify_delete (fun _ => "h") (noFaults [104, 105])
          [("/r/b.txt", [104, 105])] "/r/b.txt" "/r/.deduplab_duplicates/b.txt").1
            "/r/b.txt" = none) ∧
      ((noFaults [104, 105]).unlinkOk = false →
        fsGet (copy_verify_delete (fun _ => "h") (noFaults [104, 105])
          [("/r/b.txt", [104, 105])] "/r/b.txt" "/r/.deduplab_duplicates/b.txt").1
            "/r/b.txt" = some [104, 105]))) :=
  ⟨⟨by decide, by decide, by decide⟩,
   C1_three_phase_commit_safety (fun _ => "h") (noFaults [104, 105])
     [("/r/b.txt", [104, 105])] "/r/b.txt" "/r/.deduplab_duplicates/b.txt"
     [104, 105] (by decide) (by decide) (by decide)⟩

end DeDupeLab
